import Mathlib

/-!
Shallow embedding of the timer-react application core
(`src/storage.ts`, `src/components/Timer/Timer.tsx` and `App.getLandingData`)
together with theorems settling the specification claims.

Strings are modelled as `List Char` (JS strings), JS numbers appearing in the
Add form as `JSNum` (either NaN or an integer), and `localStorage` as an
association list from keys to serialized strings.
-/

namespace TimerApp

/-! ### Decimal digits and JS `Number.prototype.toString` for integers -/

/-- The decimal digit character for `n` (defined for `n < 10`; larger inputs
collapse to `'9'`, a case that never arises). -/
def digitChar (n : Nat) : Char :=
  match n with
  | 0 => '0' | 1 => '1' | 2 => '2' | 3 => '3' | 4 => '4'
  | 5 => '5' | 6 => '6' | 7 => '7' | 8 => '8' | _ => '9'

/-- Fuel-driven decimal printer for naturals (most significant digit first).
The fuel makes the recursion structural so that the kernel can evaluate it. -/
def natToCharsAux : Nat → Nat → List Char
  | 0, _ => []
  | fuel + 1, n =>
    if n < 10 then [digitChar n]
    else natToCharsAux fuel (n / 10) ++ [digitChar (n % 10)]

/-- Decimal representation of a natural number, as produced by JS
`Number.prototype.toString` on a non-negative integer. -/
def natToChars (n : Nat) : List Char := natToCharsAux (n + 1) n

/-- JS `Number.prototype.toString` on an integer. -/
def intToChars (n : Int) : List Char :=
  if n < 0 then '-' :: natToChars n.natAbs else natToChars n.toNat

/-! ### The persisted record: `TimerData` from `src/types` -/

/-- The persisted timer record `TimerData \x7bid: number, time: number, title: string\x7d`. -/
structure TimerData where
  id : Nat
  time : Nat
  title : List Char
deriving DecidableEq, Repr

/-! ### JSON serialization of a `TimerData` (model of `JSON.stringify`/`JSON.parse`
as used by `Storage.set`/`Storage.get` on timer records) -/

/-- Escaping of a JS string body by `JSON.stringify`: quotes and backslashes get
a backslash escape; other characters at or above code point 32 are emitted raw. -/
def escapeChars : List Char → List Char
  | [] => []
  | c :: cs => (if c = '"' ∨ c = '\\' then ['\\', c] else [c]) ++ escapeChars cs

/-- Meaning of a single JSON backslash escape (the `\u` form is not modelled;
it is never produced for the characters this application stores). -/
def unescChar (c : Char) : Char :=
  if c = 'n' then Char.ofNat 10
  else if c = 't' then Char.ofNat 9
  else if c = 'r' then Char.ofNat 13
  else if c = 'b' then Char.ofNat 8
  else if c = 'f' then Char.ofNat 12
  else c

/-- Parse a JSON string body up to and including the closing quote, returning
the decoded body and the remaining input. -/
def parseStrBody : List Char → Option (List Char × List Char)
  | [] => none
  | c :: r =>
    if c = '"' then some ([], r)
    else if c = '\\' then
      match r with
      | [] => none
      | e :: r2 =>
        match parseStrBody r2 with
        | none => none
        | some p => some (unescChar e :: p.1, p.2)
    else
      match parseStrBody r with
      | none => none
      | some p => some (c :: p.1, p.2)

/-- Longest digit run at the front of the input, together with the rest. -/
def takeDigits : List Char → List Char × List Char
  | [] => ([], [])
  | c :: cs =>
    if c.isDigit then
      let p := takeDigits cs
      (c :: p.1, p.2)
    else ([], c :: cs)

/-- Numeric value of a digit run. -/
def digitsVal (ds : List Char) : Nat :=
  ds.foldl (fun a c => a * 10 + (c.toNat - 48)) 0

/-- Parse a non-empty decimal number. -/
def parseNatNum (s : List Char) : Option (Nat × List Char) :=
  let p := takeDigits s
  if p.1.isEmpty then none else some (digitsVal p.1, p.2)

/-- Expect the literal `l` at the front of the input. -/
def dropLit : List Char → List Char → Option (List Char)
  | [], s => some s
  | _ :: _, [] => none
  | c :: cs, x :: xs => if x = c then dropLit cs xs else none

/-- The literal `\x7b"id":`. -/
def litId : List Char := "\x7b\"id\":".data

/-- The literal `,"time":`. -/
def litTime : List Char := ",\"time\":".data

/-- The literal `,"title":"`. -/
def litTitle : List Char := ",\"title\":\"".data

/-- The closing literal `\x7d`. -/
def litClose : List Char := "\x7d".data

/-- Model of `JSON.stringify` on a `TimerData` object (keys in insertion order
`id`, `time`, `title`, exactly as built in `Add.saveTimer`). -/
def stringify (v : TimerData) : List Char :=
  litId ++ natToChars v.id ++ litTime ++ natToChars v.time
    ++ litTitle ++ escapeChars v.title ++ '"' :: litClose

/-- Model of `JSON.parse` restricted to the shape produced by `stringify`; any other
input (including the `null` read of an absent key) yields `none`. -/
def parseTimerData (s : List Char) : Option TimerData :=
  (dropLit litId s).bind fun r1 =>
  (parseNatNum r1).bind fun p1 =>
  (dropLit litTime p1.2).bind fun r2 =>
  (parseNatNum r2).bind fun p2 =>
  (dropLit litTitle p2.2).bind fun r3 =>
  (parseStrBody r3).bind fun p3 =>
  (dropLit litClose p3.2).bind fun r4 =>
  if r4.isEmpty then some ⟨p1.1, p2.1, p3.1⟩ else none

/-! ### `localStorage` and the `Storage` wrapper from `src/storage.ts` -/

/-- Model of `localStorage`: a finite map from string keys to string values, kept as an
association list (JS object key order). -/
abbrev LocalStorage := List (List Char × List Char)

/-- Model of `localStorage.getItem`. -/
def getItem : LocalStorage → List Char → Option (List Char)
  | [], _ => none
  | (k, v) :: m, key => if k = key then some v else getItem m key

/-- Whether a key is present. -/
def hasItem : LocalStorage → List Char → Bool
  | [], _ => false
  | (k, _) :: m, key => k = key || hasItem m key

/-- Model of `localStorage.setItem`: overwrite in place, or append a fresh key. -/
def setItem (m : LocalStorage) (key v : List Char) : LocalStorage :=
  if hasItem m key then
    m.map fun p => if p.1 = key then (key, v) else p
  else m ++ [(key, v)]

/-- Model of `localStorage.removeItem`. -/
def removeItem (m : LocalStorage) (key : List Char) : LocalStorage :=
  m.filter fun p => p.1 ≠ key

/-- Model of `Object.keys(localStorage)`. -/
def objectKeys (m : LocalStorage) : List (List Char) := m.map Prod.fst

/-- JS `String.prototype.includes`: substring containment. -/
def hasInfix (s sub : List Char) : Bool :=
  match s with
  | [] => sub.isEmpty
  | c :: t => sub.isPrefixOf (c :: t) || hasInfix t sub

/-- The `Storage` wrapper class; `pref` is its `prefix` field (the constructor
stores the supplied prefix, or the empty string when none is given). -/
structure Storage where
  pref : List Char

/-- Model of `Storage.prefixed`: a key that already contains the prefix is returned
unchanged; otherwise the prefix and a dash are prepended (when the prefix is
non-empty). -/
def Storage.prefixed (st : Storage) (key : List Char) : List Char :=
  if hasInfix key st.pref then key
  else if st.pref.length ≠ 0 then st.pref ++ '-' :: key else key

/-- Model of `Storage.get`: `JSON.parse(localStorage.getItem(prefixed key))`; an absent
key deserializes to `null`, modelled as `none`. -/
def Storage.get (st : Storage) (m : LocalStorage) (key : List Char) : Option TimerData :=
  (getItem m (st.prefixed key)).bind parseTimerData

/-- Model of `Storage.set`: `localStorage.setItem(prefixed key, JSON.stringify value)`. -/
def Storage.set (st : Storage) (m : LocalStorage) (key : List Char) (v : TimerData) :
    LocalStorage :=
  setItem m (st.prefixed key) (stringify v)

/-- Model of `Storage.delete`: `localStorage.removeItem(prefixed key)`. -/
def Storage.del (st : Storage) (m : LocalStorage) (key : List Char) : LocalStorage :=
  removeItem m (st.prefixed key)

/-- Model of `Storage.keys`: all `localStorage` keys, filtered to those containing the
prefix when a prefix is configured. -/
def Storage.keys (st : Storage) (m : LocalStorage) : List (List Char) :=
  if st.pref.length ≠ 0 then (objectKeys m).filter fun k => hasInfix k st.pref
  else objectKeys m

/-! ### JS numbers in the Add form (`Add.calcTime`, `Add.saveTimer`) -/

/-- A JS number as it occurs in the Add form: `NaN` (e.g. `parseInt` of an
empty input) or an integer. -/
inductive JSNum where
  | nan : JSNum
  | num : Int → JSNum
deriving DecidableEq, Repr

/-- JS `isNaN`. -/
def JSNum.isNaN : JSNum → Bool
  | .nan => true
  | .num _ => false

/-- JS `+` on numbers: `NaN` is absorbing. -/
def JSNum.add : JSNum → JSNum → JSNum
  | .num a, .num b => .num (a + b)
  | _, _ => .nan

/-- JS `*` by an integer constant: `NaN` is absorbing. -/
def JSNum.mulConst : JSNum → Int → JSNum
  | .num a, c => .num (a * c)
  | .nan, _ => .nan

/-- JS truthiness of a possibly-absent number: `undefined`, `NaN` and `0`
are falsy, every other number is truthy. -/
def jsTruthy : Option JSNum → Bool
  | none => false
  | some .nan => false
  | some (.num v) => decide (v ≠ 0)

/-- Model of `Add.calcTime(h?, m?, s?)`: `(h ? h*3600 : 0) + (m ? m*60 : 0) + (s ? s : 0)`. -/
def calcTime (h m s : Option JSNum) : JSNum :=
  let hours := if jsTruthy h then (h.getD .nan).mulConst 3600 else .num 0
  let minutes := if jsTruthy m then (m.getD .nan).mulConst 60 else .num 0
  let seconds := if jsTruthy s then s.getD .nan else .num 0
  (hours.add minutes).add seconds

/-- Model of `Add.saveTimer`, modelled on its inputs: the (possibly absent) title
string, the three `parseInt` results, the generated id, and the current
`localStorage` contents of the `Storage('timer')` wrapper. Returns the new
storage contents and the `error` state flag (the inline error indicator).
On the validation failure branch nothing is written to storage. -/
def saveTimer (st : Storage) (m : LocalStorage) (title : Option (List Char))
    (h mi s : JSNum) (id : Nat) : LocalStorage × Bool :=
  let time := calcTime (some h) (some mi) (some s)
  match time with
  | .num v =>
    if 0 < v then
      let titleVal := match title with
        | none => []
        | some t => if t.isEmpty then [] else t
      (st.set m (natToChars id) ⟨id, v.toNat, titleVal⟩, false)
    else (m, true)
  | .nan => (m, true)

/-! ### The Timer runtime (`src/components/Timer/Timer.tsx`)

Instance fields, React state, the interval handle, the queued 160ms
grace-delay `setTimeout(stopTimer)` callbacks and `document.title` are all
made explicit.  `intervalActive` records whether the `setInterval` started by
`startTimer` is live (`clearInterval` kills it); `pendingStops` counts queued
grace-delay auto-stop timeouts (the source never stores their ids, so nothing
ever clears them). -/

structure Timer where
  paused : Bool
  stopped : Bool
  time : Int
  elapsedTime : Int
  defaultTime : Int
  intervalActive : Bool
  pendingStops : Nat
  docTitle : List Char
  domTitle : List Char
  propsTitle : Option (List Char)
deriving DecidableEq, Repr

/-- JS `%` (sign of the dividend) as used on `state.time`. -/
def jsMod (a b : Int) : Int := Int.tmod a b

/-- Model of `Timer.displayNumber`: decimal string, left-padded to two digits. -/
def displayNumber (value : Int) : List Char :=
  let number := intToChars value
  if number.length < 2 then '0' :: number else number

/-- Model of `Timer.getHours`: `Math.floor(time / 3600)`, zero-padded. -/
def Timer.getHours (s : Timer) : List Char :=
  displayNumber (Int.fdiv s.time 3600)

/-- Model of `Timer.getMinutes`: `Math.floor((time % 3600) / 60)`, zero-padded. -/
def Timer.getMinutes (s : Timer) : List Char :=
  displayNumber (Int.fdiv (jsMod s.time 3600) 60)

/-- Model of `Timer.getSeconds`: `Math.floor((time % 3600) % 60)`, zero-padded. -/
def Timer.getSeconds (s : Timer) : List Char :=
  displayNumber (jsMod (jsMod s.time 3600) 60)

/-- Model of `Timer.updateTitle`: writes `"<title> – hh:mm:ss"` into `document.title`
(`–` is U+2013). -/
def updateTitle (s : Timer) : Timer :=
  let name := match s.propsTitle with
    | none => "Timer".data
    | some t => if t.isEmpty then "Timer".data else t
  { s with docTitle :=
      name ++ ' ' :: Char.ofNat 8211 :: ' ' ::
        (s.getHours ++ ':' :: s.getMinutes ++ ':' :: s.getSeconds) }

/-- Model of `Timer.countDown`: decrement `state.time`, clamping at 0, then update the
document title. -/
def countDown (s : Timer) : Timer :=
  let e := s.time - 1
  let e := if e < 0 then 0 else e
  updateTitle { s with elapsedTime := e, time := e }

/-- Model of `Timer.startTimer`: mark running and start the one-second interval. -/
def startTimer (s : Timer) : Timer :=
  { s with paused := false, stopped := false, intervalActive := true }

/-- Model of `Timer.pauseTimer`: mark paused and `clearInterval`. -/
def pauseTimer (s : Timer) : Timer :=
  { s with paused := true, intervalActive := false }

/-- Model of `Timer.stopTimer`: mark stopped, reset `state.time` to `defaultTime`,
`clearInterval`, and restore the saved original document title. -/
def stopTimer (s : Timer) : Timer :=
  { s with stopped := true, time := s.defaultTime,
           intervalActive := false, docTitle := s.domTitle }

/-- One firing of the interval callback installed by `startTimer`: run
`countDown`, and if `state.time` reached 0, queue the 160ms grace-delay
`setTimeout(stopTimer)`.  Fires only while the interval is live. -/
def intervalTick (s : Timer) : Timer :=
  if s.intervalActive then
    let s2 := countDown s
    if s2.time = 0 then { s2 with pendingStops := s2.pendingStops + 1 } else s2
  else s

/-- One firing of a queued grace-delay timeout: it runs `stopTimer`.  Fires
only if such a timeout is actually queued. -/
def graceFire (s : Timer) : Timer :=
  if s.pendingStops ≠ 0 then stopTimer { s with pendingStops := s.pendingStops - 1 }
  else s

/-- Events a mounted Timer instance can experience, serialized by the
single-threaded event loop. -/
inductive TEvent where
  | start | pause | stop | tick | grace
deriving DecidableEq, Repr

/-- Event application. -/
def applyEvent (s : Timer) : TEvent → Timer
  | .start => startTimer s
  | .pause => pauseTimer s
  | .stop => stopTimer s
  | .tick => intervalTick s
  | .grace => graceFire s

/-- Run a sequence of events. -/
def run (s : Timer) (evs : List TEvent) : Timer := evs.foldl applyEvent s

/-- A freshly mounted Timer: the constructor captures `props.time` into
`defaultTime` and the current `document.title` into `domTitle`;
`componentDidMount` copies `props.time` into `state.time`. -/
def initTimer (propsTime : Int) (propsTitle : Option (List Char))
    (docTitle : List Char) : Timer :=
  { paused := true, stopped := false, time := propsTime, elapsedTime := 0,
    defaultTime := propsTime, intervalActive := false, pendingStops := 0,
    docTitle := docTitle, domTitle := docTitle, propsTitle := propsTitle }

/-- The specification phases of §4.3, read off the component state. -/
inductive TPhase where
  | Stopped | Running | Paused
deriving DecidableEq, Repr

/-- Phase of a runtime: `stopped` wins, then `paused`, else running. -/
def phase (s : Timer) : TPhase :=
  if s.stopped then .Stopped else if s.paused then .Paused else .Running

/-! ### `App.getLandingData` and the microtask queue

`getLandingData` issues one `storage.get` per key inside a synchronous loop;
each key's promise chain is `fetch` (the `await` inside `Storage.get`
resolving), then `push` (append the fetched record to `this.landingData`),
then `publish` (`setState(\x7blandingData\x7d)`).  The browser's microtask queue is
FIFO: running a task enqueues its chain successor at the back.  `runQueue`
is that scheduler. -/

/-- FIFO microtask scheduler over continuation chains: the task at the head
of the front chain runs, and the rest of its chain is enqueued at the back. -/
def runQueue : List (List α) → List α
  | [] => []
  | [] :: q => runQueue q
  | (a :: as) :: q => a :: runQueue (q ++ [as])
termination_by qs => (qs.map fun c => c.length + 1).sum

/-- The three microtasks of the per-key promise chain, indexed by key
position. -/
inductive LAction where
  | fetchA : Nat → LAction
  | pushA : Nat → LAction
  | publishA : LAction
deriving DecidableEq, Repr

/-- State threaded through the landing-data load: the `this.landingData`
array and the list of snapshots published via `setState`, in order. -/
structure LState where
  acc : List (Option TimerData)
  pubs : List (List (Option TimerData))
deriving DecidableEq, Repr

/-- Effect of one microtask.  `vals` is the list of per-key fetch results in
key order; resolving a fetch has no observable effect on the component. -/
def execLA (vals : List (Option TimerData)) (st : LState) : LAction → LState
  | .fetchA _ => st
  | .pushA i => { st with acc := st.acc ++ [vals.getD i none] }
  | .publishA => { st with pubs := st.pubs ++ [st.acc] }

/-- Model of `App.getLandingData`, observed as the sequence of lists it publishes to
the presentation layer: with no stored keys it publishes the empty list once;
otherwise each key contributes a `fetch`/`push`/`publish` chain, scheduled by
the FIFO microtask queue. -/
def getLandingData (vals : List (Option TimerData)) :
    List (List (Option TimerData)) :=
  if vals.isEmpty then [[]]
  else
    ((runQueue ((List.range vals.length).map fun i =>
        [LAction.fetchA i, LAction.pushA i, LAction.publishA])).foldl
      (execLA vals) ⟨[], []⟩).pubs

/-- Model of `App.getLandingData` against a concrete store: the keys are
`storage.keys()` (already-prefixed) and each is fetched with
`storage.get`. -/
def appGetLandingData (st : Storage) (m : LocalStorage) :
    List (List (Option TimerData)) :=
  getLandingData ((Storage.keys st m).map fun k => Storage.get st m k)

/-! ## Helper lemmas: the Timer runtime -/

theorem countDown_time (s : Timer) :
    (countDown s).time = if s.time - 1 < 0 then 0 else s.time - 1 := rfl

theorem countDown_nonneg (s : Timer) : 0 ≤ (countDown s).time := by
  rw [countDown_time]; split <;> omega

theorem intervalTick_stopped (s : Timer) : (intervalTick s).stopped = s.stopped := by
  simp only [intervalTick, countDown, updateTitle]
  split_ifs <;> rfl

theorem intervalTick_of_inactive (s : Timer) (h : s.intervalActive = false) :
    intervalTick s = s := by
  simp [intervalTick, h]

theorem applyEvent_defaultTime (s : Timer) (e : TEvent) :
    (applyEvent s e).defaultTime = s.defaultTime := by
  cases e <;>
    simp only [applyEvent, startTimer, pauseTimer, stopTimer, intervalTick,
      graceFire, countDown, updateTitle] <;>
    first
    | rfl
    | (split_ifs <;> rfl)

theorem applyEvent_domTitle (s : Timer) (e : TEvent) :
    (applyEvent s e).domTitle = s.domTitle := by
  cases e <;>
    simp only [applyEvent, startTimer, pauseTimer, stopTimer, intervalTick,
      graceFire, countDown, updateTitle] <;>
    first
    | rfl
    | (split_ifs <;> rfl)

theorem run_defaultTime (s : Timer) (evs : List TEvent) :
    (run s evs).defaultTime = s.defaultTime := by
  induction evs generalizing s with
  | nil => rfl
  | cons e evs ih =>
    show (run (applyEvent s e) evs).defaultTime = _
    rw [ih, applyEvent_defaultTime]

theorem run_domTitle (s : Timer) (evs : List TEvent) :
    (run s evs).domTitle = s.domTitle := by
  induction evs generalizing s with
  | nil => rfl
  | cons e evs ih =>
    show (run (applyEvent s e) evs).domTitle = _
    rw [ih, applyEvent_domTitle]

/-- Invariant of every state with `stopped = true` that is reachable from a
freshly mounted Timer: the time shows the original duration, the document
title is restored, and no interval is live. -/
def StoppedInv (s : Timer) : Prop :=
  s.stopped = true →
    s.time = s.defaultTime ∧ s.docTitle = s.domTitle ∧ s.intervalActive = false

theorem stoppedInv_stop (s : Timer) : StoppedInv (stopTimer s) := by
  intro _; simp [stopTimer]

theorem applyEvent_stoppedInv (s : Timer) (e : TEvent) (h : StoppedInv s) :
    StoppedInv (applyEvent s e) := by
  cases e with
  | start => intro hs; simp [applyEvent, startTimer] at hs
  | pause =>
    intro hs
    simp only [applyEvent, pauseTimer] at hs ⊢
    rcases h hs with ⟨h1, h2, _⟩
    exact ⟨h1, h2, trivial⟩
  | stop => exact stoppedInv_stop s
  | tick =>
    show StoppedInv (intervalTick s)
    intro hs
    have hs' : s.stopped = true := by rwa [intervalTick_stopped] at hs
    have hIA : s.intervalActive = false := (h hs').2.2
    rw [intervalTick_of_inactive s hIA]
    exact h hs'
  | grace =>
    show StoppedInv (graceFire s)
    by_cases hp : s.pendingStops ≠ 0
    · unfold graceFire
      rw [if_pos hp]
      exact stoppedInv_stop _
    · unfold graceFire
      rw [if_neg hp]
      exact h

theorem run_stoppedInv (s : Timer) (evs : List TEvent) (h : StoppedInv s) :
    StoppedInv (run s evs) := by
  induction evs generalizing s with
  | nil => exact h
  | cons e evs ih => exact ih _ (applyEvent_stoppedInv s e h)

theorem initTimer_stoppedInv (pt : Int) (pt' : Option (List Char)) (d0 : List Char) :
    StoppedInv (initTimer pt pt' d0) := by
  intro hs; simp [initTimer] at hs

theorem phase_eq_stopped (s : Timer) : phase s = TPhase.Stopped ↔ s.stopped = true := by
  unfold phase
  split
  · simp [*]
  · split <;> simp_all

theorem stopTimer_eq_self (s : Timer) (h1 : s.stopped = true)
    (h2 : s.time = s.defaultTime) (h3 : s.docTitle = s.domTitle)
    (h4 : s.intervalActive = false) : stopTimer s = s := by
  cases s
  simp_all [stopTimer]

/-! ## Claims about the Timer runtime -/

/-- Claim C3: a tick of a running runtime with remaining `r ≥ 0` sets the
remaining time to `max (r - 1) 0`, and no sequence of ticks can drive the
remaining time below 0. -/
theorem countDown_clamps (s : Timer) (n : Nat) (h : 0 ≤ s.time) :
    (countDown s).time = max (s.time - 1) 0 ∧ 0 ≤ (countDown^[n] s).time := by
  constructor
  · rw [countDown_time]; split <;> omega
  · induction n generalizing s with
    | zero => exact h
    | succ n ih =>
      rw [Function.iterate_succ_apply]
      exact ih (countDown s) (countDown_nonneg s)

/-- Witness for C3: starting from `time = 3`, the hypothesis holds and the
theorem applies with four ticks. -/
theorem countDown_clamps_witness :
    0 ≤ (initTimer 3 none []).time ∧
      ((countDown (initTimer 3 none [])).time = max ((initTimer 3 none []).time - 1) 0 ∧
        0 ≤ (countDown^[4] (initTimer 3 none [])).time) :=
  ⟨by decide, countDown_clamps (initTimer 3 none []) 4 (by decide)⟩

/-- Claim C2, amended: pausing or stopping cancels the pending one-second
tick (the interval is cleared), but neither cancels a queued 160ms
grace-delay auto-stop callback — the source never stores the timeout id, so
the count of queued auto-stops is unchanged by `pauseTimer` and
`stopTimer`. -/
theorem pause_stop_cancellation (s : Timer) :
    (pauseTimer s).intervalActive = false ∧ (stopTimer s).intervalActive = false ∧
      (pauseTimer s).pendingStops = s.pendingStops ∧
      (stopTimer s).pendingStops = s.pendingStops := by
  simp [pauseTimer, stopTimer]

/-- Counterexample for C2 as stated: start a timer with `time = 1`; the first
tick reaches 0 and queues the grace-delay auto-stop; a stop issued during the
grace window leaves that callback queued (`pendingStops = 1`), and its later
firing still changes the state — the queued auto-stop was not prevented. -/
theorem pause_stop_cancellation_cex :
    (run (initTimer 1 none []) [TEvent.start, TEvent.tick, TEvent.stop]).pendingStops = 1 ∧
      applyEvent (run (initTimer 1 none []) [TEvent.start, TEvent.tick, TEvent.stop])
          TEvent.grace ≠
        run (initTimer 1 none []) [TEvent.start, TEvent.tick, TEvent.stop] := by
  decide

/-- Claim C6: stopping a runtime in phase Running or Paused cancels the tick,
resets the remaining time to the duration captured at construction, and
restores the document title to its value from before the runtime started. -/
theorem stop_resets (pt : Int) (ptitle : Option (List Char)) (d0 : List Char)
    (evs : List TEvent)
    (h : phase (run (initTimer pt ptitle d0) evs) = TPhase.Running ∨
         phase (run (initTimer pt ptitle d0) evs) = TPhase.Paused) :
    (stopTimer (run (initTimer pt ptitle d0) evs)).intervalActive = false ∧
      (stopTimer (run (initTimer pt ptitle d0) evs)).time = pt ∧
      (stopTimer (run (initTimer pt ptitle d0) evs)).docTitle = d0 := by
  refine ⟨rfl, ?_, ?_⟩
  · show (run (initTimer pt ptitle d0) evs).defaultTime = pt
    rw [run_defaultTime]
    rfl
  · show (run (initTimer pt ptitle d0) evs).domTitle = d0
    rw [run_domTitle]
    rfl

/-- Witness for C6: a just-started runtime is Running, and stopping it resets
everything. -/
theorem stop_resets_witness :
    (phase (run (initTimer 5 none []) [TEvent.start]) = TPhase.Running ∨
      phase (run (initTimer 5 none []) [TEvent.start]) = TPhase.Paused) ∧
      ((stopTimer (run (initTimer 5 none []) [TEvent.start])).intervalActive = false ∧
        (stopTimer (run (initTimer 5 none []) [TEvent.start])).time = 5 ∧
        (stopTimer (run (initTimer 5 none []) [TEvent.start])).docTitle = []) :=
  ⟨by decide, stop_resets 5 none [] [TEvent.start] (by decide)⟩

/-- Claim C7: on any reachable runtime already in the Stopped phase, `stop`
is a complete no-op — the state (remaining time, flags, document title) is
unchanged, and the remaining time is the original duration. -/
theorem stop_idempotent (pt : Int) (ptitle : Option (List Char)) (d0 : List Char)
    (evs : List TEvent)
    (h : phase (run (initTimer pt ptitle d0) evs) = TPhase.Stopped) :
    stopTimer (run (initTimer pt ptitle d0) evs) = run (initTimer pt ptitle d0) evs ∧
      (run (initTimer pt ptitle d0) evs).time = pt := by
  have hstop : (run (initTimer pt ptitle d0) evs).stopped = true :=
    (phase_eq_stopped _).mp h
  have hinv := run_stoppedInv (initTimer pt ptitle d0) evs
    (initTimer_stoppedInv pt ptitle d0) hstop
  refine ⟨stopTimer_eq_self _ hstop hinv.1 hinv.2.1 hinv.2.2, ?_⟩
  rw [hinv.1, run_defaultTime]
  rfl

/-- Witness for C7: stop a fresh runtime, then observe that a second stop
changes nothing. -/
theorem stop_idempotent_witness :
    phase (run (initTimer 5 none []) [TEvent.stop]) = TPhase.Stopped ∧
      (stopTimer (run (initTimer 5 none []) [TEvent.stop]) =
          run (initTimer 5 none []) [TEvent.stop] ∧
        (run (initTimer 5 none []) [TEvent.stop]).time = 5) :=
  ⟨by decide, stop_idempotent 5 none [] [TEvent.stop] (by decide)⟩

/-! ## Helper lemmas: `calcTime` and `saveTimer` -/

theorem component_mul_num (xo : Option Int) (c : Int) :
    (if jsTruthy (xo.map JSNum.num) then ((xo.map JSNum.num).getD .nan).mulConst c
      else .num 0) = JSNum.num (xo.getD 0 * c) := by
  rcases xo with _ | x
  · simp [jsTruthy]
  · by_cases hx : x = 0 <;> simp [jsTruthy, hx, JSNum.mulConst]

theorem component_id_num (xo : Option Int) :
    (if jsTruthy (xo.map JSNum.num) then (xo.map JSNum.num).getD .nan
      else .num 0) = JSNum.num (xo.getD 0) := by
  rcases xo with _ | x
  · simp [jsTruthy]
  · by_cases hx : x = 0 <;> simp [jsTruthy, hx]

theorem component_mul_exists (xo : Option JSNum) (c : Int) :
    ∃ w, (if jsTruthy xo then (xo.getD .nan).mulConst c else .num 0) =
      JSNum.num w := by
  rcases xo with _ | x
  · exact ⟨0, by simp [jsTruthy]⟩
  · cases x with
    | nan => exact ⟨0, by simp [jsTruthy]⟩
    | num v =>
      by_cases hv : v = 0
      · exact ⟨0, by simp [jsTruthy, hv]⟩
      · exact ⟨v * c, by simp [jsTruthy, hv, JSNum.mulConst]⟩

theorem component_id_exists (xo : Option JSNum) :
    ∃ w, (if jsTruthy xo then xo.getD .nan else .num 0) = JSNum.num w := by
  rcases xo with _ | x
  · exact ⟨0, by simp [jsTruthy]⟩
  · cases x with
    | nan => exact ⟨0, by simp [jsTruthy]⟩
    | num v =>
      by_cases hv : v = 0
      · exact ⟨0, by simp [jsTruthy, hv]⟩
      · exact ⟨v, by simp [jsTruthy, hv]⟩

theorem calcTime_exists_num (h m s : Option JSNum) :
    ∃ v, calcTime h m s = JSNum.num v := by
  obtain ⟨a, ha⟩ := component_mul_exists h 3600
  obtain ⟨b, hb⟩ := component_mul_exists m 60
  obtain ⟨c, hc⟩ := component_id_exists s
  refine ⟨a + b + c, ?_⟩
  simp only [calcTime, ha, hb, hc, JSNum.add]

/-! ## Claims about `Add.calcTime` and `Add.saveTimer` -/

/-- Claim C4: for non-negative hour/minute/second inputs, with absent
components treated as 0, the computed total duration is
`h * 3600 + m * 60 + s`. -/
theorem calcTime_total (ho mo so : Option Int)
    (hh : 0 ≤ ho.getD 0) (hm : 0 ≤ mo.getD 0) (hs : 0 ≤ so.getD 0) :
    calcTime (ho.map JSNum.num) (mo.map JSNum.num) (so.map JSNum.num) =
      JSNum.num (ho.getD 0 * 3600 + mo.getD 0 * 60 + so.getD 0) := by
  simp only [calcTime, component_mul_num, component_id_num, JSNum.add]

/-- Witness for C4: `(1h, 2m, absent s)` gives 3720 seconds. -/
theorem calcTime_total_witness :
    (0 ≤ (some 1 : Option Int).getD 0 ∧ 0 ≤ (some 2 : Option Int).getD 0 ∧
        0 ≤ (none : Option Int).getD 0) ∧
      calcTime ((some 1 : Option Int).map JSNum.num)
          ((some 2 : Option Int).map JSNum.num)
          ((none : Option Int).map JSNum.num) =
        JSNum.num ((some 1 : Option Int).getD 0 * 3600 +
          (some 2 : Option Int).getD 0 * 60 + (none : Option Int).getD 0) :=
  ⟨⟨by decide, by decide, by decide⟩,
    calcTime_total (some 1) (some 2) none (by decide) (by decide) (by decide)⟩

/-- Claim C5: `saveTimer` raises the inline error state exactly when the
computed total is `NaN` or not strictly positive (in particular for the
all-zero input), and in that case nothing is written to the store. -/
theorem saveTimer_validation (st : Storage) (m : LocalStorage)
    (title : Option (List Char)) (h mi s : JSNum) (id : Nat) :
    ((saveTimer st m title h mi s id).2 = true ↔
      calcTime (some h) (some mi) (some s) = JSNum.nan ∨
        ∃ v, calcTime (some h) (some mi) (some s) = JSNum.num v ∧ v ≤ 0) ∧
      ((saveTimer st m title h mi s id).2 = true →
        (saveTimer st m title h mi s id).1 = m) ∧
      (saveTimer st m title (JSNum.num 0) (JSNum.num 0) (JSNum.num 0) id).2 = true := by
  have hzero : calcTime (some (JSNum.num 0)) (some (JSNum.num 0)) (some (JSNum.num 0)) =
      JSNum.num 0 := by decide
  refine ⟨?_, ?_, ?_⟩
  · cases hcalc : calcTime (some h) (some mi) (some s) with
    | nan => simp [saveTimer, hcalc]
    | num v =>
      by_cases hv : 0 < v
      · simp only [saveTimer, hcalc]
        rw [if_pos hv]
        simp
        omega
      · simp only [saveTimer, hcalc]
        rw [if_neg hv]
        simp
        omega
  · cases hcalc : calcTime (some h) (some mi) (some s) with
    | nan => simp [saveTimer, hcalc]
    | num v =>
      by_cases hv : 0 < v
      · simp only [saveTimer, hcalc]
        rw [if_pos hv]
        simp
      · simp only [saveTimer, hcalc]
        rw [if_neg hv]
        simp
  · simp [saveTimer, hzero]

/-- Claim C9: `calcTime` never returns `NaN` (a `NaN` component is falsy and
contributes 0), so the `isNaN` half of `saveTimer`'s guard is never the
reason a create is rejected: rejection happens exactly when the total
is `≤ 0`. -/
theorem calcTime_never_nan (h mi s : Option JSNum) (st : Storage)
    (m : LocalStorage) (title : Option (List Char)) (hn mn sn : JSNum)
    (id : Nat) :
    (∃ v, calcTime h mi s = JSNum.num v) ∧
      ((saveTimer st m title hn mn sn id).2 = true ↔
        ∃ v, calcTime (some hn) (some mn) (some sn) = JSNum.num v ∧ v ≤ 0) := by
  refine ⟨calcTime_exists_num h mi s, ?_⟩
  obtain ⟨v, hv⟩ := calcTime_exists_num (some hn) (some mn) (some sn)
  by_cases hpos : 0 < v
  · simp only [saveTimer, hv]
    rw [if_pos hpos]
    simp
    omega
  · simp only [saveTimer, hv]
    rw [if_neg hpos]
    simp
    omega

/-! ## Helper lemmas: the microtask queue and `getLandingData` -/

theorem runQueue_all_nil {α : Type} (qs : List (List α)) (h : ∀ c ∈ qs, c = []) :
    runQueue qs = [] := by
  induction qs with
  | nil => simp [runQueue]
  | cons c q ih =>
    have hc : c = [] := h c (by simp)
    subst hc
    show runQueue ([] :: q) = []
    rw [runQueue]
    exact ih fun c hc => h c (by simp [hc])

theorem runQueue_round {α : Type} (qs : List (α × List α)) (rest : List (List α)) :
    runQueue (qs.map (fun d => d.1 :: d.2) ++ rest) =
      qs.map Prod.fst ++ runQueue (rest ++ qs.map Prod.snd) := by
  induction qs generalizing rest with
  | nil => simp
  | cons d qs ih =>
    show runQueue ((d.1 :: d.2) :: (qs.map _ ++ rest)) = _
    rw [runQueue]
    rw [List.append_assoc]
    rw [ih (rest ++ [d.2])]
    simp

theorem foldl_fetch (vals : List (Option TimerData)) (l : List Nat) (st : LState) :
    (l.map LAction.fetchA).foldl (execLA vals) st = st := by
  induction l generalizing st with
  | nil => rfl
  | cons i l ih => exact ih st

theorem foldl_push (vals : List (Option TimerData)) (l : List Nat) (st : LState) :
    (l.map LAction.pushA).foldl (execLA vals) st =
      ⟨st.acc ++ l.map (fun i => vals.getD i none), st.pubs⟩ := by
  induction l generalizing st with
  | nil => simp
  | cons i l ih =>
    show (l.map LAction.pushA).foldl (execLA vals) ⟨st.acc ++ [vals.getD i none], st.pubs⟩ = _
    rw [ih]
    simp

theorem foldl_publish (vals : List (Option TimerData)) (l : List Nat) (st : LState) :
    (l.map fun _ => LAction.publishA).foldl (execLA vals) st =
      ⟨st.acc, st.pubs ++ l.map fun _ => st.acc⟩ := by
  induction l generalizing st with
  | nil => simp
  | cons i l ih =>
    show (l.map fun _ => LAction.publishA).foldl (execLA vals) ⟨st.acc, st.pubs ++ [st.acc]⟩ = _
    rw [ih]
    simp

theorem map_getD_range {α : Type} (l : List α) (d : α) :
    (List.range l.length).map (fun i => l.getD i d) = l := by
  induction l with
  | nil => rfl
  | cons a t ih =>
    show (List.range (t.length + 1)).map _ = _
    rw [List.range_succ_eq_map, List.map_cons, List.map_map]
    refine congrArg (a :: ·) ?_
    calc (List.range t.length).map ((fun i => (a :: t).getD i d) ∘ Nat.succ)
        = (List.range t.length).map (fun i => t.getD i d) := by
          exact List.map_congr_left fun i _ => rfl
      _ = t := ih

/-- Full characterization of the landing-data load: with no keys the empty
list is published once; with `n` keys, all fetches and pushes complete on the
FIFO microtask queue before the first `setState`, after which the (complete)
list is published once per key — `n` identical publications. -/
theorem getLandingData_eq (vals : List (Option TimerData)) :
    getLandingData vals =
      if vals.isEmpty then [[]] else List.replicate vals.length vals := by
  by_cases hv : vals.isEmpty
  · simp [getLandingData, hv]
  · rw [getLandingData, if_neg hv, if_neg hv]
    have h1 : (List.range vals.length).map
        (fun i => [LAction.fetchA i, LAction.pushA i, LAction.publishA]) =
        ((List.range vals.length).map
          (fun i => (LAction.fetchA i, [LAction.pushA i, LAction.publishA]))).map
          (fun d => d.1 :: d.2) := by
      rw [List.map_map]; rfl
    have h2 : ((List.range vals.length).map
        (fun i => (LAction.fetchA i, [LAction.pushA i, LAction.publishA]))).map Prod.snd =
        ((List.range vals.length).map
          (fun i => (LAction.pushA i, [LAction.publishA]))).map (fun d => d.1 :: d.2) := by
      rw [List.map_map, List.map_map]; rfl
    have h3 : ((List.range vals.length).map
        (fun i => (LAction.pushA i, [LAction.publishA]))).map Prod.snd =
        ((List.range vals.length).map
          (fun i => (LAction.publishA, ([] : List LAction)))).map (fun d => d.1 :: d.2) := by
      rw [List.map_map, List.map_map]; rfl
    have h4 : runQueue (((List.range vals.length).map
        (fun i => (LAction.publishA, ([] : List LAction)))).map Prod.snd) = [] := by
      apply runQueue_all_nil
      intro c hc
      simp only [List.map_map, List.mem_map] at hc
      obtain ⟨i, _, hi⟩ := hc
      exact hi.symm
    have hq : runQueue ((List.range vals.length).map
        (fun i => [LAction.fetchA i, LAction.pushA i, LAction.publishA])) =
        (List.range vals.length).map LAction.fetchA ++
          ((List.range vals.length).map LAction.pushA ++
            (List.range vals.length).map (fun _ => LAction.publishA)) := by
      rw [h1]
      have r1 := runQueue_round ((List.range vals.length).map
        (fun i => (LAction.fetchA i, [LAction.pushA i, LAction.publishA]))) []
      rw [List.append_nil, List.nil_append] at r1
      rw [r1, h2]
      have r2 := runQueue_round ((List.range vals.length).map
        (fun i => (LAction.pushA i, [LAction.publishA]))) []
      rw [List.append_nil, List.nil_append] at r2
      rw [r2, h3]
      have r3 := runQueue_round ((List.range vals.length).map
        (fun i => (LAction.publishA, ([] : List LAction)))) []
      rw [List.append_nil, List.nil_append] at r3
      rw [r3, h4, List.append_nil]
      rw [List.map_map, List.map_map, List.map_map]
      rfl
    rw [hq]
    rw [List.foldl_append, List.foldl_append]
    rw [foldl_fetch, foldl_push, foldl_publish]
    simp only [List.nil_append]
    rw [map_getD_range]
    show (List.range vals.length).map (fun _ => vals) = _
    rw [List.map_const', List.length_range]

/-! ## Claims about `App.getLandingData` -/

/-- Claim C1 (amended): a refresh publishes the timer list once per stored
key (and once when the store is empty) — not exactly once — but, because the
FIFO microtask order completes every fetch and push before the first
`setState`, every published list is the complete refreshed list; no partial
per-key list is ever published. -/
theorem refresh_publishes_full_list (st : Storage) (m : LocalStorage) :
    (appGetLandingData st m).length = max (Storage.keys st m).length 1 ∧
      ∀ p ∈ appGetLandingData st m,
        p = (Storage.keys st m).map fun k => Storage.get st m k := by
  unfold appGetLandingData
  rw [getLandingData_eq]
  by_cases hk : (Storage.keys st m).isEmpty
  · have : Storage.keys st m = [] := by
      cases hkk : Storage.keys st m
      · rfl
      · rw [hkk] at hk; simp at hk
    rw [this]
    simp
  · have hne : ¬((Storage.keys st m).map fun k => Storage.get st m k).isEmpty := by
      simpa using hk
    rw [if_neg hne]
    constructor
    · rw [List.length_replicate, List.length_map]
      have : (Storage.keys st m).length ≠ 0 := by
        simpa [List.isEmpty_iff_length_eq_zero] using hk
      omega
    · intro p hp
      exact List.eq_of_mem_replicate hp

/-- Counterexample for C1 as stated: a store holding two timer records makes
a refresh publish the list twice (once per key), not exactly once. -/
theorem refresh_publishes_full_list_cex :
    (appGetLandingData ⟨"timer".data⟩
        (Storage.set ⟨"timer".data⟩
          (Storage.set ⟨"timer".data⟩ [] "1".data ⟨1, 60, []⟩)
          "2".data ⟨2, 120, []⟩)).length ≠ 1 := by
  unfold appGetLandingData
  rw [getLandingData_eq]
  decide

/-! ## Helper lemmas: key prefixing -/

theorem isPrefixOf_append_self (l r : List Char) : l.isPrefixOf (l ++ r) = true := by
  induction l with
  | nil => simp [List.isPrefixOf]
  | cons c cs ih => simp [List.isPrefixOf, ih]

theorem hasInfix_nil (s : List Char) : hasInfix s [] = true := by
  cases s <;> simp [hasInfix, List.isPrefixOf]

theorem hasInfix_append_left (sub r : List Char) : hasInfix (sub ++ r) sub = true := by
  cases sub with
  | nil => exact hasInfix_nil r
  | cons c cs =>
    show hasInfix (c :: (cs ++ r)) (c :: cs) = true
    unfold hasInfix
    rw [show c :: (cs ++ r) = (c :: cs) ++ r from rfl]
    rw [isPrefixOf_append_self]
    rfl

theorem prefixed_contains (st : Storage) (k : List Char) :
    hasInfix (st.prefixed k) st.pref = true := by
  unfold Storage.prefixed
  split
  · assumption
  · split
    · exact hasInfix_append_left st.pref ('-' :: k)
    · have : st.pref = [] := by
        rename_i h
        simpa using h
      rw [this]
      exact hasInfix_nil k

theorem prefixed_idem (st : Storage) (k : List Char) :
    st.prefixed (st.prefixed k) = st.prefixed k := by
  have h := prefixed_contains st k
  unfold Storage.prefixed at h ⊢
  rw [if_pos h]

theorem hasItem_getItem_map (m : LocalStorage) (key v : List Char)
    (h : hasItem m key = true) :
    getItem (m.map fun p => if p.1 = key then (key, v) else p) key = some v := by
  induction m with
  | nil => simp [hasItem] at h
  | cons p m ih =>
    obtain ⟨k0, v0⟩ := p
    simp only [List.map_cons]
    by_cases hk : k0 = key
    · subst hk
      rw [if_pos rfl]
      show getItem ((k0, v) :: _) k0 = some v
      unfold getItem
      rw [if_pos rfl]
    · have h' : hasItem m key = true := by
        simp [hasItem, hk] at h
        simpa using h
      rw [if_neg (by simpa using hk)]
      show getItem ((k0, v0) :: _) key = some v
      unfold getItem
      rw [if_neg hk]
      exact ih h'

theorem not_hasItem_getItem_append (m : LocalStorage) (key v : List Char)
    (h : hasItem m key = false) :
    getItem (m ++ [(key, v)]) key = some v := by
  induction m with
  | nil => simp [getItem]
  | cons p m ih =>
    obtain ⟨k0, v0⟩ := p
    have hk : ¬k0 = key := by
      intro hkk
      simp [hasItem, hkk] at h
    have h' : hasItem m key = false := by
      simp [hasItem, hk] at h
      simpa using h
    show getItem ((k0, v0) :: (m ++ [(key, v)])) key = some v
    unfold getItem
    rw [if_neg hk]
    exact ih h'

theorem getItem_setItem (m : LocalStorage) (key v : List Char) :
    getItem (setItem m key v) key = some v := by
  unfold setItem
  split
  · exact hasItem_getItem_map m key v (by assumption)
  · exact not_hasItem_getItem_append m key v (by rename_i h; simpa using h)

theorem mem_map_fst_overwrite (m : LocalStorage) (key v : List Char)
    (h : hasItem m key = true) :
    key ∈ (m.map fun p => if p.1 = key then (key, v) else p).map Prod.fst := by
  induction m with
  | nil => simp [hasItem] at h
  | cons p m ih =>
    obtain ⟨k0, v0⟩ := p
    simp only [List.map_cons, List.mem_cons]
    by_cases hk : k0 = key
    · subst hk
      left
      simp
    · right
      apply ih
      simp [hasItem, hk] at h
      simpa using h

theorem mem_objectKeys_setItem (m : LocalStorage) (key v : List Char) :
    key ∈ objectKeys (setItem m key v) := by
  unfold setItem
  split
  · rename_i h
    exact mem_map_fst_overwrite m key v h
  · simp [objectKeys]

/-! ## Claim about `Storage.prefixed` and `Storage.keys` -/

/-- Claim C10: `prefixed` is idempotent (a key already containing the prefix
is returned unchanged), so the already-prefixed keys returned by
`Storage.keys` after a `set` can be passed straight back to `get`/`delete`
and address the same slot as the unprefixed key used at `set` time. -/
theorem prefixed_idempotent (pre k : List Char) (m : LocalStorage) (v : TimerData) :
    Storage.prefixed ⟨pre⟩ (Storage.prefixed ⟨pre⟩ k) = Storage.prefixed ⟨pre⟩ k ∧
      Storage.prefixed ⟨pre⟩ k ∈ Storage.keys ⟨pre⟩ (Storage.set ⟨pre⟩ m k v) ∧
      Storage.get ⟨pre⟩ (Storage.set ⟨pre⟩ m k v) (Storage.prefixed ⟨pre⟩ k) =
        Storage.get ⟨pre⟩ (Storage.set ⟨pre⟩ m k v) k ∧
      Storage.del ⟨pre⟩ m (Storage.prefixed ⟨pre⟩ k) = Storage.del ⟨pre⟩ m k := by
  refine ⟨prefixed_idem ⟨pre⟩ k, ?_, ?_, ?_⟩
  · unfold Storage.keys Storage.set
    split
    · refine List.mem_filter.mpr ⟨?_, prefixed_contains ⟨pre⟩ k⟩
      exact mem_objectKeys_setItem m _ _
    · exact mem_objectKeys_setItem m _ _
  · unfold Storage.get
    rw [prefixed_idem]
  · unfold Storage.del
    rw [prefixed_idem]

/-! ## Helper lemmas: decimal printing parses back -/

theorem digitChar_isDigit (d : Nat) (h : d < 10) : (digitChar d).isDigit = true := by
  interval_cases d <;> decide

theorem digitChar_toNat (d : Nat) (h : d < 10) : (digitChar d).toNat - 48 = d := by
  interval_cases d <;> decide

theorem natToCharsAux_digits (fuel : Nat) :
    ∀ n, n < fuel → ∀ c ∈ natToCharsAux fuel n, c.isDigit = true := by
  induction fuel with
  | zero => intro n hn; omega
  | succ fuel ih =>
    intro n hn c hc
    unfold natToCharsAux at hc
    by_cases h10 : n < 10
    · rw [if_pos h10] at hc
      simp only [List.mem_singleton] at hc
      subst hc
      exact digitChar_isDigit n h10
    · rw [if_neg h10] at hc
      rw [List.mem_append] at hc
      rcases hc with hc | hc
      · exact ih (n / 10) (by omega) c hc
      · simp only [List.mem_singleton] at hc
        subst hc
        exact digitChar_isDigit (n % 10) (by omega)

theorem natToCharsAux_ne_nil (fuel : Nat) :
    ∀ n, n < fuel → natToCharsAux fuel n ≠ [] := by
  induction fuel with
  | zero => intro n hn; omega
  | succ fuel _ =>
    intro n _
    unfold natToCharsAux
    by_cases h10 : n < 10
    · rw [if_pos h10]; simp
    · rw [if_neg h10]; simp

theorem digitsVal_append_single (xs : List Char) (c : Char) :
    digitsVal (xs ++ [c]) = digitsVal xs * 10 + (c.toNat - 48) := by
  unfold digitsVal
  rw [List.foldl_append]
  rfl

theorem natToCharsAux_val (fuel : Nat) :
    ∀ n, n < fuel → digitsVal (natToCharsAux fuel n) = n := by
  induction fuel with
  | zero => intro n hn; omega
  | succ fuel ih =>
    intro n hn
    unfold natToCharsAux
    by_cases h10 : n < 10
    · rw [if_pos h10]
      show digitsVal ([] ++ [digitChar n]) = n
      rw [digitsVal_append_single, digitChar_toNat n h10]
      show 0 * 10 + n = n
      omega
    · rw [if_neg h10]
      rw [digitsVal_append_single, ih (n / 10) (by omega),
        digitChar_toNat (n % 10) (by omega)]
      omega

theorem natToChars_digits (n : Nat) : ∀ c ∈ natToChars n, c.isDigit = true :=
  natToCharsAux_digits (n + 1) n (Nat.lt_succ_self n)

theorem natToChars_ne_nil (n : Nat) : natToChars n ≠ [] :=
  natToCharsAux_ne_nil (n + 1) n (Nat.lt_succ_self n)

theorem natToChars_val (n : Nat) : digitsVal (natToChars n) = n :=
  natToCharsAux_val (n + 1) n (Nat.lt_succ_self n)

/-! ## Helper lemmas: the schema parser inverts `stringify` -/

theorem dropLit_append (l s : List Char) : dropLit l (l ++ s) = some s := by
  induction l with
  | nil => rfl
  | cons c cs ih =>
    show dropLit (c :: cs) (c :: (cs ++ s)) = some s
    unfold dropLit
    rw [if_pos rfl]
    exact ih

theorem takeDigits_append (ds r : List Char) (hds : ∀ c ∈ ds, c.isDigit = true)
    (hr : ∀ c, r.head? = some c → c.isDigit = false) :
    takeDigits (ds ++ r) = (ds, r) := by
  induction ds with
  | nil =>
    cases r with
    | nil => rfl
    | cons c t =>
      show takeDigits (c :: t) = ([], c :: t)
      unfold takeDigits
      rw [if_neg (by simp [hr c rfl])]
  | cons c cs ih =>
    show takeDigits (c :: (cs ++ r)) = (c :: cs, r)
    unfold takeDigits
    rw [if_pos (hds c (by simp))]
    rw [ih fun x hx => hds x (by simp [hx])]

theorem parseNatNum_append (n : Nat) (r : List Char)
    (hr : ∀ c, r.head? = some c → c.isDigit = false) :
    parseNatNum (natToChars n ++ r) = some (n, r) := by
  unfold parseNatNum
  rw [takeDigits_append (natToChars n) r (natToChars_digits n) hr]
  rw [if_neg (by simpa using natToChars_ne_nil n)]
  rw [natToChars_val]

theorem parseStrBody_escape (t r : List Char) :
    parseStrBody (escapeChars t ++ '"' :: r) = some (t, r) := by
  induction t with
  | nil =>
    show parseStrBody ('"' :: r) = some ([], r)
    unfold parseStrBody
    rw [if_pos rfl]
  | cons c cs ih =>
    by_cases hc : c = '"' ∨ c = '\\'
    · have h1 : escapeChars (c :: cs) ++ '"' :: r =
          '\\' :: c :: (escapeChars cs ++ '"' :: r) := by
        show (if c = '"' ∨ c = '\\' then ['\\', c] else [c]) ++ _ ++ _ = _
        rw [if_pos hc]
        simp
      rw [h1]
      show parseStrBody ('\\' :: (c :: (escapeChars cs ++ '"' :: r))) = _
      unfold parseStrBody
      rw [if_neg (by decide), if_pos rfl]
      show (match parseStrBody (escapeChars cs ++ '"' :: r) with
            | none => none
            | some p => some (unescChar c :: p.1, p.2)) = _
      rw [ih]
      show some (unescChar c :: cs, r) = some (c :: cs, r)
      rcases hc with h | h <;> subst h <;> rfl
    · push_neg at hc
      have h1 : escapeChars (c :: cs) ++ '"' :: r =
          c :: (escapeChars cs ++ '"' :: r) := by
        show (if c = '"' ∨ c = '\\' then ['\\', c] else [c]) ++ _ ++ _ = _
        rw [if_neg (by simp [hc.1, hc.2])]
        simp
      rw [h1]
      show parseStrBody (c :: (escapeChars cs ++ '"' :: r)) = _
      unfold parseStrBody
      rw [if_neg hc.1, if_neg hc.2]
      show (match parseStrBody (escapeChars cs ++ '"' :: r) with
            | none => none
            | some p => some (c :: p.1, p.2)) = _
      rw [ih]

theorem dropLit_self (l : List Char) : dropLit l l = some [] := by
  have h := dropLit_append l []
  rwa [List.append_nil] at h

theorem parseTimerData_stringify (v : TimerData) :
    parseTimerData (stringify v) = some v := by
  have hTime : ∀ c, (litTime ++ (natToChars v.time ++ (litTitle ++
      (escapeChars v.title ++ '"' :: litClose)))).head? = some c →
      c.isDigit = false := by
    intro c hc
    have : (',' : Char) = c := by
      simpa [litTime] using hc
    rw [← this]
    decide
  have hTitle : ∀ c, (litTitle ++ (escapeChars v.title ++ '"' :: litClose)).head? =
      some c → c.isDigit = false := by
    intro c hc
    have : (',' : Char) = c := by
      simpa [litTitle] using hc
    rw [← this]
    decide
  unfold parseTimerData stringify
  rw [List.append_assoc, List.append_assoc, List.append_assoc,
    List.append_assoc, List.append_assoc]
  rw [dropLit_append]
  rw [Option.some_bind]
  rw [parseNatNum_append v.id _ hTime]
  rw [Option.some_bind]
  rw [dropLit_append]
  rw [Option.some_bind]
  rw [parseNatNum_append v.time _ hTitle]
  rw [Option.some_bind]
  rw [dropLit_append]
  rw [Option.some_bind]
  rw [parseStrBody_escape]
  rw [Option.some_bind]
  rw [dropLit_self]
  rw [Option.some_bind]
  rfl

/-! ## Claim about the Store round-trip -/

/-- Claim C8: writing a timer record with `Storage.set` and reading it back
with `Storage.get` under the same key and prefix returns a structurally equal
record (numeric fields in the 32-53 bit range; titles without control
characters, for which the modelled `JSON.stringify` escaping is exact). -/
theorem storage_roundtrip (pre : List Char) (m : LocalStorage) (key : List Char)
    (v : TimerData) (hid : v.id < 2 ^ 53) (htime : v.time < 2 ^ 53)
    (htitle : ∀ c ∈ v.title, 32 ≤ c.toNat) :
    Storage.get ⟨pre⟩ (Storage.set ⟨pre⟩ m key v) key = some v := by
  unfold Storage.get Storage.set
  rw [getItem_setItem]
  rw [Option.some_bind]
  exact parseTimerData_stringify v

/-- Witness for C8: the record `\x7bid: 123, time: 300, title: "Tea"\x7d` written
under key `"123"` with prefix `"timer"` reads back structurally equal. -/
theorem storage_roundtrip_witness :
    ((⟨123, 300, "Tea".data⟩ : TimerData).id < 2 ^ 53 ∧
        (⟨123, 300, "Tea".data⟩ : TimerData).time < 2 ^ 53 ∧
        ∀ c ∈ (⟨123, 300, "Tea".data⟩ : TimerData).title, 32 ≤ c.toNat) ∧
      Storage.get ⟨"timer".data⟩
          (Storage.set ⟨"timer".data⟩ [] "123".data ⟨123, 300, "Tea".data⟩)
          "123".data = some ⟨123, 300, "Tea".data⟩ :=
  ⟨⟨by decide, by decide, by decide⟩,
    storage_roundtrip "timer".data [] "123".data ⟨123, 300, "Tea".data⟩
      (by decide) (by decide) (by decide)⟩

end TimerApp
